import Mathlib

/-!
Verification of the blinkapp-desktop file intake and upload pipeline.

The definitions below are shallow embeddings of the TypeScript source:
renderer queue handlers from `src/renderer/App-simple.tsx`, the OneDrive
client from `src/main/oneDriveService.ts`, and the SQLite cache layer from
the `DatabaseManager` class. JavaScript strings are modelled as `List Char`,
JavaScript numbers that hold sizes/indices as `Nat`, and fallible remote
calls as `Except`-valued oracle parameters. Each remote call performed by a
function is additionally recorded in an event trace so that theorems can
speak about which calls were or were not made.
-/

namespace BlinkApp

/-! ## JavaScript string primitives (List Char model) -/

/-- `s.split(sep)` for a single-character separator, JS semantics:
always returns at least one (possibly empty) piece. -/
def jsSplit (sep : Char) : List Char → List (List Char)
  | [] => [[]]
  | c :: cs =>
    let r := jsSplit sep cs
    if c = sep then [] :: r
    else
      match r with
      | [] => [[c]]
      | h :: t => (c :: h) :: t

/-- `pat` occurs at the start of the second argument. -/
def startsWithSeq : List Char → List Char → Bool
  | [], _ => true
  | _ :: _, [] => false
  | a :: as, b :: bs => a = b && startsWithSeq as bs

/-- `s.includes(pat)`: `pat` occurs contiguously somewhere in `s`. -/
def containsSeq (pat : List Char) : List Char → Bool
  | [] => pat.isEmpty
  | c :: rest => startsWithSeq pat (c :: rest) || containsSeq pat rest

/-- `s.indexOf(c, start)`: first index `≥ start` holding `c`, `-1` if none. -/
def jsIndexOfFrom (c : Char) (start : Nat) (s : List Char) : Int :=
  match (s.drop start).findIdx? (· = c) with
  | some k => (start + k : Nat)
  | none => -1

/-- `s.substring(0, e)` with JS clamping of a negative end to `0`. -/
def jsTakeTo (s : List Char) (e : Int) : List Char := s.take (max e 0).toNat

/-- Suffix of `s` that starts at the last `'.'`; the whole of `s` when it has
no `'.'` — exactly `s.substring(s.lastIndexOf('.'))` (JS clamps `-1` to `0`). -/
def jsExtension : List Char → List Char
  | [] => []
  | c :: cs => if '.' ∈ cs then jsExtension cs else c :: cs

/-- `.replace(/\\/g, '/')`. -/
def slashify (s : List Char) : List Char :=
  s.map fun c => if c = '\\' then '/' else c

/-- `.replace(/^pfx/, '')`: drop `pfx` when the string starts with it. -/
def dropIfStarts (pfx s : List Char) : List Char :=
  if startsWithSeq pfx s then s.drop pfx.length else s

/-- Everything after the first occurrence of `c` (used with
`substring(indexOf(c) + 1)` where presence of `c` has been checked). -/
def dropThroughFirst (c : Char) : List Char → List Char
  | [] => []
  | a :: as => if a = c then as else dropThroughFirst c as

/-! ## Data model: the renderer queue (`FileProcessingState`) -/

/-- Result object assembled after a successful upload (the fields of the
`result` value the claims care about). -/
structure ProcessResult where
  success : Bool
  fileId : List Char
  webUrl : List Char
  deriving DecidableEq, Repr

/-- `interface FileProcessingState` from `App-simple.tsx`. -/
structure FileProcessingState where
  fileName : List Char
  displayName : List Char
  filePath : List Char
  timestamp : Nat
  selectedFolder : List Char
  selectedTags : List Nat
  isProcessing : Bool
  isProcessed : Bool
  result : Option ProcessResult
  error : Option (List Char)
  deriving DecidableEq, Repr

/-- `interface UserPreferences` (the field the intake handlers read). -/
structure UserPreferences where
  oneDriveRootFolder : List Char
  deriving DecidableEq, Repr

/-! ## File detection (`handleFileDetected` / `handleNotificationClicked`) -/

/-- `filePath.split('\\').pop() || filePath.split('/').pop() || 'Unknown file'`. -/
def jsFileNameOf (filePath : List Char) : List Char :=
  let a := ((jsSplit '\\' filePath).getLast?).getD []
  if a ≠ [] then a
  else
    let b := ((jsSplit '/' filePath).getLast?).getD []
    if b ≠ [] then b else ("Unknown file").toList

/-- The branch taken when no OneDrive root folder is configured: inspect the
prefix of the file path up to the first backslash at index `≥ 3`. -/
def inferredRootLabel (filePath : List Char) : List Char :=
  let fileDriveRoot := jsTakeTo filePath (jsIndexOfFrom '\\' 3 filePath)
  if containsSeq ("OneDrive").toList fileDriveRoot then
    ("OneDrive Root (Configure in Settings)").toList
  else ("OneDrive Root").toList

/-- Conversion of the configured OneDrive root folder into the display
folder stored on a freshly detected file. -/
def displayFolderFor (rootFolder : List Char) (filePath : List Char) : List Char :=
  if rootFolder = ['/'] ∨ rootFolder = [] then inferredRootLabel filePath
  else if '\\' ∈ rootFolder then slashify (dropIfStarts ("E:\\365\\").toList rootFolder)
  else rootFolder

/-- The fresh `FileProcessingState` pushed onto the queue for a new file. -/
def mkNewFile (fileName displayFolder filePath : List Char) (now : Nat) :
    FileProcessingState :=
  { fileName := fileName
    displayName := fileName
    filePath := filePath
    timestamp := now
    selectedFolder := displayFolder
    selectedTags := []
    isProcessing := false
    isProcessed := false
    result := none
    error := none }

/-- `handleFileDetected`: skip when preferences are not loaded; otherwise
append a new entry unless one with the same `filePath` is already queued. -/
def handleFileDetected (prefsLoaded : Bool) (prefs : Option UserPreferences)
    (q : List FileProcessingState) (filePath : List Char) (now : Nat) :
    List FileProcessingState :=
  match prefs with
  | none => q
  | some p =>
    if prefsLoaded = false then q
    else
      let fileName := jsFileNameOf filePath
      if q.any (fun f => f.filePath = filePath) then q
      else q ++ [mkNewFile fileName (displayFolderFor p.oneDriveRootFolder filePath) filePath now]

/-- `handleNotificationClicked`: same guard and same dedup-by-`filePath`
append, with the file name supplied by the notification payload. -/
def handleNotificationClicked (prefsLoaded : Bool) (prefs : Option UserPreferences)
    (q : List FileProcessingState) (fileName filePath : List Char) (now : Nat) :
    List FileProcessingState :=
  match prefs with
  | none => q
  | some p =>
    if prefsLoaded = false then q
    else if q.any (fun f => f.filePath = filePath) then q
    else q ++ [mkNewFile fileName (displayFolderFor p.oneDriveRootFolder filePath) filePath now]

/-- One detection event delivered to the renderer: either a watcher
`FileReady` event or a notification click carrying a name and a path. -/
inductive DetectionEvent
  | fileReady (filePath : List Char) (now : Nat)
  | notificationClick (fileName filePath : List Char) (now : Nat)
  deriving DecidableEq, Repr

/-- Dispatch one detection event to its handler. -/
def applyDetection (prefsLoaded : Bool) (prefs : Option UserPreferences)
    (q : List FileProcessingState) : DetectionEvent → List FileProcessingState
  | .fileReady filePath now => handleFileDetected prefsLoaded prefs q filePath now
  | .notificationClick fileName filePath now =>
      handleNotificationClicked prefsLoaded prefs q fileName filePath now

/-- Run a whole sequence of detection events. -/
def runDetections (prefsLoaded : Bool) (prefs : Option UserPreferences)
    (q : List FileProcessingState) (evs : List DetectionEvent) :
    List FileProcessingState :=
  evs.foldl (applyDetection prefsLoaded prefs) q

/-! ### Uniqueness of `filePath` (C1) -/

theorem any_filePath_false {q : List FileProcessingState} {p : List Char}
    (h : q.any (fun f => f.filePath = p) = false) :
    p ∉ q.map (·.filePath) := by
  intro hmem
  rcases List.mem_map.mp hmem with ⟨f, hf, hfp⟩
  have htrue : (q.any fun f => decide (f.filePath = p)) = true :=
    List.any_eq_true.mpr ⟨f, hf, by simp [hfp]⟩
  rw [h] at htrue
  exact Bool.false_ne_true htrue

theorem nodup_append_new {q : List FileProcessingState} {x : FileProcessingState}
    (hq : (q.map (·.filePath)).Nodup) (hx : x.filePath ∉ q.map (·.filePath)) :
    ((q ++ [x]).map (·.filePath)).Nodup := by
  rw [List.map_append]
  refine List.Nodup.append hq (List.nodup_singleton _) ?_
  intro a ha hb
  simp only [List.map_cons, List.map_nil, List.mem_singleton] at hb
  exact hx (hb ▸ ha)

theorem applyDetection_nodup (prefsLoaded : Bool) (prefs : Option UserPreferences)
    (q : List FileProcessingState) (ev : DetectionEvent)
    (hq : (q.map (·.filePath)).Nodup) :
    ((applyDetection prefsLoaded prefs q ev).map (·.filePath)).Nodup := by
  cases ev with
  | fileReady filePath now =>
    simp only [applyDetection, handleFileDetected]
    cases prefs with
    | none => exact hq
    | some p =>
      by_cases hl : prefsLoaded = false
      · simp [hl, hq]
      · simp only [hl, if_false]
        by_cases hdup : q.any (fun f => f.filePath = filePath) = true
        · simp [hdup, hq]
        · have hfalse : q.any (fun f => f.filePath = filePath) = false := by
            simpa using hdup
          simp only [hdup, if_false]
          exact nodup_append_new hq (any_filePath_false hfalse)
  | notificationClick fileName filePath now =>
    simp only [applyDetection, handleNotificationClicked]
    cases prefs with
    | none => exact hq
    | some p =>
      by_cases hl : prefsLoaded = false
      · simp [hl, hq]
      · simp only [hl, if_false]
        by_cases hdup : q.any (fun f => f.filePath = filePath) = true
        · simp [hdup, hq]
        · have hfalse : q.any (fun f => f.filePath = filePath) = false := by
            simpa using hdup
          simp only [hdup, if_false]
          exact nodup_append_new hq (any_filePath_false hfalse)

/-- C1: for every sequence of detection events (watcher `FileReady` events
and notification clicks), an event whose path already has a live queue entry
is ignored, so the queue never contains two entries with equal `filePath`. -/
theorem detection_queue_filePath_unique (prefsLoaded : Bool)
    (prefs : Option UserPreferences) (q : List FileProcessingState)
    (evs : List DetectionEvent) (hq : (q.map (·.filePath)).Nodup) :
    ((runDetections prefsLoaded prefs q evs).map (·.filePath)).Nodup := by
  induction evs generalizing q with
  | nil => exact hq
  | cons ev rest ih =>
    exact ih _ (applyDetection_nodup prefsLoaded prefs q ev hq)

/-- Witness for C1: two `FileReady` events for the same path starting from
an empty queue leave the queue's paths duplicate-free. -/
theorem detection_queue_filePath_unique_witness :
    ((runDetections true (some ⟨[]⟩) []
        [.fileReady ("a.txt").toList 0, .fileReady ("a.txt").toList 1]).map
      (·.filePath)).Nodup :=
  detection_queue_filePath_unique true (some ⟨[]⟩) []
    [.fileReady ("a.txt").toList 0, .fileReady ("a.txt").toList 1]
    List.nodup_nil

/-! ## Point update of the queue

Models the recurring `prev.map((f, j) => j === i ? g(f) : f)` pattern used
by every `setDetectedFiles` call that edits a single entry. -/

def updateAt {α : Type} (i : Nat) (g : α → α) : List α → List α
  | [] => []
  | f :: fs =>
    match i with
    | 0 => g f :: fs
    | n + 1 => f :: updateAt n g fs

theorem length_updateAt {α : Type} (i : Nat) (g : α → α) (l : List α) :
    (updateAt i g l).length = l.length := by
  induction l generalizing i with
  | nil => simp [updateAt]
  | cons f fs ih =>
    cases i with
    | zero => simp [updateAt]
    | succ n => simp [updateAt, ih]

theorem getElem?_updateAt_self {α : Type} (i : Nat) (g : α → α) (l : List α) :
    (updateAt i g l)[i]? = (l[i]?).map g := by
  induction l generalizing i with
  | nil => simp [updateAt]
  | cons f fs ih =>
    cases i with
    | zero => simp [updateAt]
    | succ n => simpa [updateAt] using ih n

theorem getElem?_updateAt_ne {α : Type} {i j : Nat} (g : α → α) (l : List α)
    (h : j ≠ i) : (updateAt i g l)[j]? = l[j]? := by
  induction l generalizing i j with
  | nil => simp [updateAt]
  | cons f fs ih =>
    cases i with
    | zero =>
      cases j with
      | zero => exact absurd rfl h
      | succ m => simp [updateAt]
    | succ n =>
      cases j with
      | zero => simp [updateAt]
      | succ m =>
        simpa [updateAt] using ih (fun hm => h (by simp [hm]))

theorem map_filePath_updateAt (i : Nat)
    (g : FileProcessingState → FileProcessingState)
    (hg : ∀ f, (g f).filePath = f.filePath) (l : List FileProcessingState) :
    (updateAt i g l).map (·.filePath) = l.map (·.filePath) := by
  induction l generalizing i with
  | nil => simp [updateAt]
  | cons f fs ih =>
    cases i with
    | zero => simp [updateAt, hg]
    | succ n => simp [updateAt, ih]

/-! ## Renaming an entry (`handleFileNameChange`) -/

/-- The per-entry body of `handleFileNameChange`: when the new name lacks a
`'.'` and the original extension is nonempty, append the extension. -/
def renameEntry (newName : List Char) (file : FileProcessingState) :
    FileProcessingState :=
  let originalExtension := jsExtension file.fileName
  let finalName :=
    if '.' ∉ newName ∧ originalExtension ≠ [] then newName ++ originalExtension
    else newName
  { file with displayName := finalName }

/-- `handleFileNameChange(index, newName)` over the queue. -/
def handleFileNameChange (q : List FileProcessingState) (index : Nat)
    (newName : List Char) : List FileProcessingState :=
  updateAt index (renameEntry newName) q

theorem jsExtension_append_dot {b : List Char} (hb : '.' ∉ b) :
    ∀ a : List Char, jsExtension (a ++ '.' :: b) = '.' :: b := by
  intro a
  induction a with
  | nil => simp [jsExtension, hb]
  | cons c a ih =>
    have hmem : '.' ∈ a ++ '.' :: b := List.mem_append_right a (List.mem_cons_self _ _)
    simpa [jsExtension, hmem] using ih

theorem jsExtension_of_no_dot {s : List Char} (hs : '.' ∉ s) :
    jsExtension s = s := by
  cases s with
  | nil => rfl
  | cons c cs =>
    have : '.' ∉ cs := fun h => hs (List.mem_cons_of_mem _ h)
    simp [jsExtension, this]

/-- C5: renaming with a name that lacks a `'.'` leaves a `displayName`
ending with the original file's extension (the suffix of the original
`fileName` starting at its last `'.'`). -/
theorem rename_preserves_extension (q : List FileProcessingState) (i : Nat)
    (newName a b : List Char) (f : FileProcessingState)
    (hf : q[i]? = some f) (hname : f.fileName = a ++ '.' :: b)
    (hb : '.' ∉ b) (hnew : '.' ∉ newName) :
    ∃ f', (handleFileNameChange q i newName)[i]? = some f' ∧
      ('.' :: b) <:+ f'.displayName := by
  refine ⟨renameEntry newName f, ?_, ?_⟩
  · rw [handleFileNameChange, getElem?_updateAt_self, hf]
    rfl
  · have hext : jsExtension f.fileName = '.' :: b := by
      rw [hname]; exact jsExtension_append_dot hb a
    have : (renameEntry newName f).displayName = newName ++ '.' :: b := by
      simp only [renameEntry, hext]
      rw [if_pos ⟨hnew, List.cons_ne_nil '.' b⟩]
    rw [this]
    exact ⟨newName, rfl⟩

/-- Witness for C5 at a concrete queue: renaming `report.pdf` to `renamed`
keeps the `.pdf` extension. -/
theorem rename_preserves_extension_witness :
    ∃ f', (handleFileNameChange
        [mkNewFile ("report.pdf").toList [] ("p").toList 0] 0
        ("renamed").toList)[0]? = some f' ∧
      ('.' :: ("pdf").toList) <:+ f'.displayName :=
  rename_preserves_extension
    [mkNewFile ("report.pdf").toList [] ("p").toList 0] 0
    ("renamed").toList ("report").toList ("pdf").toList
    (mkNewFile ("report.pdf").toList [] ("p").toList 0) rfl rfl
    (by decide) (by decide)

/-- C10: when the original `fileName` has no `'.'` and the new name has no
`'.'` either, the computed extension is the entire original name, so the new
`displayName` is the new name with the whole original `fileName` appended. -/
theorem rename_no_dot_appends_whole_name (q : List FileProcessingState)
    (i : Nat) (newName : List Char) (f : FileProcessingState)
    (hf : q[i]? = some f) (horig : '.' ∉ f.fileName) (hnew : '.' ∉ newName) :
    ∃ f', (handleFileNameChange q i newName)[i]? = some f' ∧
      f'.displayName = newName ++ f.fileName := by
  refine ⟨renameEntry newName f, ?_, ?_⟩
  · rw [handleFileNameChange, getElem?_updateAt_self, hf]
    rfl
  · have hext : jsExtension f.fileName = f.fileName := jsExtension_of_no_dot horig
    by_cases hz : f.fileName = []
    · have hnil : jsExtension f.fileName = [] := by rw [hz]; rfl
      have hdn : (renameEntry newName f).displayName = newName := by
        simp only [renameEntry, hnil]
        rw [if_neg (by simp)]
      rw [hdn, hz, List.append_nil]
    · simp only [renameEntry, hext]
      rw [if_pos ⟨hnew, hz⟩]

/-- Witness for C10: renaming a dotless `README` to `notes` yields
`notesREADME`. -/
theorem rename_no_dot_appends_whole_name_witness :
    ∃ f', (handleFileNameChange
        [mkNewFile ("README").toList [] ("p").toList 0] 0
        ("notes").toList)[0]? = some f' ∧
      f'.displayName = ("notes").toList ++ ("README").toList :=
  rename_no_dot_appends_whole_name
    [mkNewFile ("README").toList [] ("p").toList 0] 0 ("notes").toList
    (mkNewFile ("README").toList [] ("p").toList 0) rfl
    (by decide) (by decide)

/-! ## Processing a single file (`handleProcessSingleFile`)

The remote calls (OneDrive upload via IPC, the tag-association `fetch`, the
source-file deletion via IPC) are oracles whose outcomes are inputs; the
trace records each call that is actually issued. -/

/-- Payload of a successful `uploadToOneDrive` IPC call. -/
structure UploadResultData where
  id : List Char
  webUrl : List Char
  deriving DecidableEq, Repr

/-- Outcomes of the three external calls `handleProcessSingleFile` can
issue. The deletion outcome distinguishes a rejected promise from a
resolved-`false` result; the code reacts to neither beyond logging. -/
structure RemoteOutcomes where
  upload : Except (List Char) UploadResultData
  assoc : Except (List Char) Unit
  deleteFile : Except (List Char) Bool

/-- Environment read by the handler: the authenticated user (if any) and
whether `window.electronAPI` is available. -/
structure AppEnv where
  currentUser : Option (List Char)
  apiAvailable : Bool
  deriving DecidableEq, Repr

/-- External calls issued while processing, in order. -/
inductive ProcEv
  | uploadCall (filePath displayName : List Char) (folder : Option (List Char))
  | assocCall (fileId : List Char) (tagIds : List Nat)
  | deleteCall (filePath : List Char)
  | delay
  deriving DecidableEq, Repr

def ProcEv.isAssoc : ProcEv → Bool
  | .assocCall _ _ => true
  | _ => false

def ProcEv.isDelay : ProcEv → Bool
  | .delay => true
  | _ => false

/-- The error message thrown when no user is authenticated. -/
def authErrorMsg : List Char :=
  ("Please authenticate with Microsoft to upload files to OneDrive.").toList

/-- The display label that maps back to the OneDrive default folder. -/
def oneDriveRootLabel : List Char := ("OneDrive Root").toList

/-- First `setDetectedFiles` of the handler: flag the entry as processing
and clear its error. -/
def markProcessing (f : FileProcessingState) : FileProcessingState :=
  { f with isProcessing := true, error := none }

/-- The `catch` branch: stop processing and store the thrown message. -/
def markError (e : List Char) (f : FileProcessingState) : FileProcessingState :=
  { f with isProcessing := false, error := some e }

/-- The success branch: stop processing, flag processed, store the result. -/
def markDone (res : ProcessResult) (f : FileProcessingState) : FileProcessingState :=
  { f with isProcessing := false, isProcessed := true, result := some res }

/-- `handleProcessSingleFile(index)`, returning the updated queue and the
trace of external calls. Guard: a missing, already-processing, or processed
entry is left untouched. On success the entry is flagged processed; any
thrown error is caught and stored on the entry; a deletion failure is
swallowed (logged only). -/
def processSingleFile (env : AppEnv) (q : List FileProcessingState) (i : Nat)
    (o : RemoteOutcomes) : List FileProcessingState × List ProcEv :=
  match q[i]? with
  | none => (q, [])
  | some file =>
    if file.isProcessing || file.isProcessed then (q, [])
    else
      let q1 := updateAt i markProcessing q
      match env.currentUser with
      | none => (updateAt i (markError authErrorMsg) q1, [])
      | some _user =>
        if env.apiAvailable = false then (q1, [])
        else
          let folder : Option (List Char) :=
            if file.selectedFolder = oneDriveRootLabel then none
            else some file.selectedFolder
          let ev0 := ProcEv.uploadCall file.filePath file.displayName folder
          match o.upload with
          | .error e => (updateAt i (markError e) q1, [ev0])
          | .ok up =>
            if 0 < file.selectedTags.length then
              match o.assoc with
              | .error e =>
                (updateAt i (markError e) q1,
                 [ev0, ProcEv.assocCall up.id file.selectedTags])
              | .ok _ =>
                let res : ProcessResult :=
                  { success := true, fileId := up.id, webUrl := up.webUrl }
                (updateAt i (markDone res) q1,
                 [ev0, ProcEv.assocCall up.id file.selectedTags,
                  ProcEv.deleteCall file.filePath])
            else
              let res : ProcessResult :=
                { success := true, fileId := up.id, webUrl := up.webUrl }
              (updateAt i (markDone res) q1,
               [ev0, ProcEv.deleteCall file.filePath])

/-- C2: processing an entry with no selected tags issues no tag-association
call, and the entry still ends up processed (`isProcessed`). -/
theorem process_no_tags_skips_assoc_and_completes (env : AppEnv)
    (q : List FileProcessingState) (i : Nat) (o : RemoteOutcomes)
    (f : FileProcessingState) (u : List Char) (up : UploadResultData)
    (hf : q[i]? = some f) (hp1 : f.isProcessing = false)
    (hp2 : f.isProcessed = false) (htags : f.selectedTags = [])
    (hu : env.currentUser = some u) (ha : env.apiAvailable = true)
    (hup : o.upload = .ok up) :
    (∀ e ∈ (processSingleFile env q i o).2, e.isAssoc = false) ∧
      ∃ f', (processSingleFile env q i o).1[i]? = some f' ∧
        f'.isProcessed = true := by
  have hres : processSingleFile env q i o =
      (updateAt i (markDone { success := true, fileId := up.id, webUrl := up.webUrl })
        (updateAt i markProcessing q),
       [ProcEv.uploadCall f.filePath f.displayName
          (if f.selectedFolder = oneDriveRootLabel then none else some f.selectedFolder),
        ProcEv.deleteCall f.filePath]) := by
    rw [processSingleFile, hf]
    simp [hp1, hp2, hu, ha, hup, htags]
  constructor
  · intro e he
    rw [hres] at he
    simp only [List.mem_cons, List.not_mem_nil, or_false] at he
    rcases he with he | he <;> rw [he] <;> rfl
  · rw [hres]
    simp only
    rw [getElem?_updateAt_self, getElem?_updateAt_self, hf]
    exact ⟨_, rfl, rfl⟩

/-- Witness for C2 at a concrete queue of one tagless entry. -/
theorem process_no_tags_skips_assoc_and_completes_witness :
    (∀ e ∈ (processSingleFile ⟨some ("u").toList, true⟩
        [mkNewFile ("a.pdf").toList [] ("p").toList 0] 0
        ⟨.ok ⟨("id1").toList, ("url1").toList⟩, .ok (), .ok true⟩).2,
      e.isAssoc = false) ∧
    ∃ f', (processSingleFile ⟨some ("u").toList, true⟩
        [mkNewFile ("a.pdf").toList [] ("p").toList 0] 0
        ⟨.ok ⟨("id1").toList, ("url1").toList⟩, .ok (), .ok true⟩).1[0]? = some f' ∧
      f'.isProcessed = true :=
  process_no_tags_skips_assoc_and_completes ⟨some ("u").toList, true⟩
    [mkNewFile ("a.pdf").toList [] ("p").toList 0] 0
    ⟨.ok ⟨("id1").toList, ("url1").toList⟩, .ok (), .ok true⟩
    (mkNewFile ("a.pdf").toList [] ("p").toList 0) ("u").toList
    ⟨("id1").toList, ("url1").toList⟩ rfl rfl rfl rfl rfl rfl rfl

/-- C3: when upload (and association, when tags were selected) succeed but
deleting the local source file fails — rejected promise or resolved
`false` — the entry is still flagged processed and its `error` stays unset. -/
theorem delete_failure_keeps_completed (env : AppEnv)
    (q : List FileProcessingState) (i : Nat) (o : RemoteOutcomes)
    (f : FileProcessingState) (u : List Char) (up : UploadResultData)
    (hf : q[i]? = some f) (hp1 : f.isProcessing = false)
    (hp2 : f.isProcessed = false) (hu : env.currentUser = some u)
    (ha : env.apiAvailable = true) (hup : o.upload = .ok up)
    (hassoc : f.selectedTags = [] ∨ o.assoc = .ok ())
    (hdel : (∃ m, o.deleteFile = .error m) ∨ o.deleteFile = .ok false) :
    ∃ f', (processSingleFile env q i o).1[i]? = some f' ∧
      f'.isProcessed = true ∧ f'.error = none := by
  have hres : (processSingleFile env q i o).1 =
      updateAt i (markDone { success := true, fileId := up.id, webUrl := up.webUrl })
        (updateAt i markProcessing q) := by
    rcases hassoc with htags | hok
    · rw [processSingleFile, hf]
      simp [hp1, hp2, hu, ha, hup, htags]
    · rw [processSingleFile, hf]
      by_cases htags : 0 < f.selectedTags.length
      · simp [hp1, hp2, hu, ha, hup, htags, hok]
      · simp [hp1, hp2, hu, ha, hup, htags]
  rw [hres, getElem?_updateAt_self, getElem?_updateAt_self, hf]
  exact ⟨_, rfl, rfl, rfl⟩

/-- Witness for C3: tags selected, association succeeds, deletion resolves
`false`; the entry is still completed with no error. -/
theorem delete_failure_keeps_completed_witness :
    ∃ f', (processSingleFile ⟨some ("u").toList, true⟩
        [{ mkNewFile ("a.pdf").toList [] ("p").toList 0 with selectedTags := [3] }] 0
        ⟨.ok ⟨("id1").toList, ("url1").toList⟩, .ok (), .ok false⟩).1[0]? = some f' ∧
      f'.isProcessed = true ∧ f'.error = none :=
  delete_failure_keeps_completed ⟨some ("u").toList, true⟩
    [{ mkNewFile ("a.pdf").toList [] ("p").toList 0 with selectedTags := [3] }] 0
    ⟨.ok ⟨("id1").toList, ("url1").toList⟩, .ok (), .ok false⟩
    { mkNewFile ("a.pdf").toList [] ("p").toList 0 with selectedTags := [3] }
    ("u").toList ⟨("id1").toList, ("url1").toList⟩
    rfl rfl rfl rfl rfl rfl (Or.inr rfl) (Or.inr rfl)

/-- C9: processing an entry that is already processing or already processed
is a no-op — no external call is issued and the whole queue is unchanged. -/
theorem process_busy_or_done_noop (env : AppEnv)
    (q : List FileProcessingState) (i : Nat) (o : RemoteOutcomes)
    (f : FileProcessingState) (hf : q[i]? = some f)
    (h : f.isProcessing = true ∨ f.isProcessed = true) :
    processSingleFile env q i o = (q, []) := by
  rw [processSingleFile, hf]
  rcases h with h | h <;> simp [h]

/-- Witness for C9: a queue whose only entry is already processing is left
untouched with an empty call trace. -/
theorem process_busy_or_done_noop_witness :
    processSingleFile ⟨some ("u").toList, true⟩
        [{ mkNewFile ("a.pdf").toList [] ("p").toList 0 with isProcessing := true }] 0
        ⟨.ok ⟨("id1").toList, ("url1").toList⟩, .ok (), .ok true⟩ =
      ([{ mkNewFile ("a.pdf").toList [] ("p").toList 0 with isProcessing := true }], []) :=
  process_busy_or_done_noop ⟨some ("u").toList, true⟩
    [{ mkNewFile ("a.pdf").toList [] ("p").toList 0 with isProcessing := true }] 0
    ⟨.ok ⟨("id1").toList, ("url1").toList⟩, .ok (), .ok true⟩
    { mkNewFile ("a.pdf").toList [] ("p").toList 0 with isProcessing := true }
    rfl (Or.inl rfl)

/-! ## Batch processing (`handleProcessAllFiles`) -/

/-- Filter used to choose the batch: `!f.isProcessed && !f.isProcessing`. -/
def eligibleFile (f : FileProcessingState) : Bool :=
  !f.isProcessed && !f.isProcessing

/-- `detectedFiles.findIndex(f => f.filePath === p)`. -/
def jsFindIndex (p : List Char) : List FileProcessingState → Option Nat
  | [] => none
  | f :: fs =>
    if f.filePath = p then some 0
    else (jsFindIndex p fs).map (· + 1)

/-- The loop body of `handleProcessAllFiles`: for each snapshot entry, look
its index up in the snapshot, process it against the current queue, and wait
between files (`i < total - 1`). Per-file call outcomes are supplied by the
oracle `outs`, indexed by the position in the batch. -/
def processAllGo (env : AppEnv) (q0 : List FileProcessingState)
    (outs : Nat → RemoteOutcomes) (total : Nat) :
    List FileProcessingState → Nat → List FileProcessingState →
      List FileProcessingState × List ProcEv
  | [], _, cur => (cur, [])
  | f :: rest, i, cur =>
    match jsFindIndex f.filePath q0 with
    | none => processAllGo env q0 outs total rest (i + 1) cur
    | some idx =>
      let step := processSingleFile env cur idx (outs i)
      let devs : List ProcEv := if i < total - 1 then [ProcEv.delay] else []
      let next := processAllGo env q0 outs total rest (i + 1) step.1
      (next.1, step.2 ++ devs ++ next.2)

/-- `handleProcessAllFiles()`: snapshot the eligible entries, alert-and-stop
when there are none, otherwise drive them sequentially. -/
def processAllFiles (env : AppEnv) (q : List FileProcessingState)
    (outs : Nat → RemoteOutcomes) : List FileProcessingState × List ProcEv :=
  let files := q.filter eligibleFile
  if files.isEmpty then (q, [])
  else processAllGo env q outs files.length files 0 q

/-- The paths of the upload calls in a trace, in order. -/
def uploadPaths (evs : List ProcEv) : List (List Char) :=
  evs.filterMap fun e =>
    match e with
    | .uploadCall p _ _ => some p
    | _ => none

/-- Number of inter-file delays in a trace. -/
def delayCount (evs : List ProcEv) : Nat :=
  (evs.filter (·.isDelay)).length

theorem processSingleFile_length (env : AppEnv) (q : List FileProcessingState)
    (i : Nat) (o : RemoteOutcomes) :
    (processSingleFile env q i o).1.length = q.length := by
  rw [processSingleFile]
  cases hq : q[i]? with
  | none => rfl
  | some file =>
    by_cases hb : (file.isProcessing || file.isProcessed) = true
    · simp [hb]
    · simp only [hb, if_false]
      cases env.currentUser with
      | none => simp [length_updateAt]
      | some u =>
        by_cases hav : env.apiAvailable = false
        · simp [hav, length_updateAt]
        · cases o.upload with
          | error e => simp [hav, length_updateAt]
          | ok up =>
            by_cases ht : 0 < file.selectedTags.length
            · cases ha : o.assoc with
              | error e => simp [hav, ht, ha, length_updateAt]
              | ok v => simp [hav, ht, ha, length_updateAt]
            · simp [hav, ht, length_updateAt]

theorem processSingleFile_getElem?_ne (env : AppEnv)
    (q : List FileProcessingState) (i j : Nat) (o : RemoteOutcomes)
    (h : j ≠ i) : (processSingleFile env q i o).1[j]? = q[j]? := by
  rw [processSingleFile]
  cases hq : q[i]? with
  | none => rfl
  | some file =>
    by_cases hb : (file.isProcessing || file.isProcessed) = true
    · simp [hb]
    · simp only [hb, if_false]
      cases env.currentUser with
      | none => simp [getElem?_updateAt_ne _ _ h]
      | some u =>
        by_cases hav : env.apiAvailable = false
        · simp [hav, getElem?_updateAt_ne _ _ h]
        · cases o.upload with
          | error e => simp [hav, getElem?_updateAt_ne _ _ h]
          | ok up =>
            by_cases ht : 0 < file.selectedTags.length
            · cases ha : o.assoc with
              | error e => simp [hav, ht, ha, getElem?_updateAt_ne _ _ h]
              | ok v => simp [hav, ht, ha, getElem?_updateAt_ne _ _ h]
            · simp [hav, ht, getElem?_updateAt_ne _ _ h]

/-- Under a present user and available API, processing an eligible entry
issues exactly one upload call, for that entry's path. -/
theorem processSingleFile_uploadPaths (env : AppEnv)
    (q : List FileProcessingState) (i : Nat) (o : RemoteOutcomes)
    (f : FileProcessingState) (u : List Char) (hf : q[i]? = some f)
    (hp1 : f.isProcessing = false) (hp2 : f.isProcessed = false)
    (hu : env.currentUser = some u) (ha : env.apiAvailable = true) :
    uploadPaths (processSingleFile env q i o).2 = [f.filePath] := by
  rw [processSingleFile, hf]
  simp only [hp1, hp2, Bool.or_false, if_false, hu, ha]
  cases o.upload with
  | error e => simp [uploadPaths]
  | ok up =>
    by_cases ht : 0 < f.selectedTags.length
    · cases hassoc : o.assoc with
      | error e => simp [ht, hassoc, uploadPaths]
      | ok v => simp [ht, hassoc, uploadPaths]
    · simp [ht, uploadPaths]

/-- A single-file run never emits a delay event. -/
theorem processSingleFile_delayCount (env : AppEnv)
    (q : List FileProcessingState) (i : Nat) (o : RemoteOutcomes) :
    delayCount (processSingleFile env q i o).2 = 0 := by
  rw [processSingleFile]
  cases hq : q[i]? with
  | none => rfl
  | some file =>
    by_cases hb : (file.isProcessing || file.isProcessed) = true
    · simp [hb, delayCount]
    · simp only [hb, if_false]
      cases env.currentUser with
      | none => simp [delayCount]
      | some u =>
        by_cases hav : env.apiAvailable = false
        · simp [hav, delayCount]
        · cases o.upload with
          | error e => simp [hav, delayCount, ProcEv.isDelay]
          | ok up =>
            by_cases ht : 0 < file.selectedTags.length
            · cases ha : o.assoc with
              | error e => simp [hav, ht, ha, delayCount, ProcEv.isDelay]
              | ok v => simp [hav, ht, ha, delayCount, ProcEv.isDelay]
            · simp [hav, ht, delayCount, ProcEv.isDelay]

/-- With duplicate-free paths, `findIndex` locates each member at its own
position. -/
theorem jsFindIndex_of_nodup (q : List FileProcessingState)
    (hq : (q.map (·.filePath)).Nodup) (f : FileProcessingState) (hf : f ∈ q) :
    ∃ j, jsFindIndex f.filePath q = some j ∧ q[j]? = some f := by
  induction q with
  | nil => cases hf
  | cons h t ih =>
    by_cases hh : h.filePath = f.filePath
    · refine ⟨0, by simp [jsFindIndex, hh], ?_⟩
      rcases List.mem_cons.mp hf with rfl | hft
      · simp
      · exfalso
        have : f.filePath ∈ t.map (·.filePath) := List.mem_map_of_mem _ hft
        rw [← hh] at this
        exact (List.nodup_cons.mp (by simpa using hq)).1 this
    · have hft : f ∈ t := by
        rcases List.mem_cons.mp hf with rfl | hft
        · exact absurd rfl hh
        · exact hft
      rcases ih (List.nodup_cons.mp (by simpa using hq)).2 hft with ⟨j, hj1, hj2⟩
      exact ⟨j + 1, by simp [jsFindIndex, hh, hj1], by simpa using hj2⟩

theorem uploadPaths_append (a b : List ProcEv) :
    uploadPaths (a ++ b) = uploadPaths a ++ uploadPaths b := by
  simp [uploadPaths]

theorem delayCount_append (a b : List ProcEv) :
    delayCount (a ++ b) = delayCount a + delayCount b := by
  simp [delayCount]

/-- Loop invariant for `processAllGo`: while the remaining snapshot entries
have duplicate-free paths, are all still unprocessed/not-processing, and are
found unchanged in the current queue at their snapshot index, the loop
issues exactly one upload per remaining entry, in order, whatever the
per-file outcomes are, with one delay between consecutive files. -/
theorem processAllGo_spec (env : AppEnv) (q0 : List FileProcessingState)
    (outs : Nat → RemoteOutcomes) (total : Nat) (u : List Char)
    (hu : env.currentUser = some u) (ha : env.apiAvailable = true) :
    ∀ (fs : List FileProcessingState) (i : Nat) (cur : List FileProcessingState),
      (fs.map (·.filePath)).Nodup →
      (∀ f ∈ fs, f.isProcessing = false ∧ f.isProcessed = false) →
      (∀ f ∈ fs, ∃ j, jsFindIndex f.filePath q0 = some j ∧ cur[j]? = some f) →
      i + fs.length = total →
      uploadPaths (processAllGo env q0 outs total fs i cur).2 = fs.map (·.filePath) ∧
        delayCount (processAllGo env q0 outs total fs i cur).2 = fs.length - 1 := by
  intro fs
  induction fs with
  | nil =>
    intro i cur _ _ _ _
    simp [processAllGo, uploadPaths, delayCount]
  | cons f rest ih =>
    intro i cur hnd hflags hidx htot
    obtain ⟨j, hj1, hj2⟩ := hidx f (List.mem_cons_self f rest)
    obtain ⟨hf1, hf2⟩ := hflags f (List.mem_cons_self f rest)
    have hgo : processAllGo env q0 outs total (f :: rest) i cur =
        ((processAllGo env q0 outs total rest (i + 1)
            (processSingleFile env cur j (outs i)).1).1,
          (processSingleFile env cur j (outs i)).2 ++
            (if i < total - 1 then [ProcEv.delay] else []) ++
            (processAllGo env q0 outs total rest (i + 1)
              (processSingleFile env cur j (outs i)).1).2) := by
      rw [processAllGo, hj1]
    have hnd' : (rest.map (·.filePath)).Nodup :=
      (List.nodup_cons.mp (by simpa using hnd)).2
    have hnotin : f.filePath ∉ rest.map (·.filePath) :=
      (List.nodup_cons.mp (by simpa using hnd)).1
    have hidx' : ∀ g ∈ rest, ∃ j', jsFindIndex g.filePath q0 = some j' ∧
        (processSingleFile env cur j (outs i)).1[j']? = some g := by
      intro g hg
      obtain ⟨j', hj'1, hj'2⟩ := hidx g (List.mem_cons_of_mem f hg)
      have hne : j' ≠ j := by
        intro hEq
        rw [hEq, hj2] at hj'2
        have : g = f := by injection hj'2 with h; exact h.symm
        rw [this] at hg
        exact hnotin (List.mem_map_of_mem _ hg)
      exact ⟨j', hj'1, by rw [processSingleFile_getElem?_ne env cur j j' (outs i) hne]; exact hj'2⟩
    have hup : uploadPaths (processSingleFile env cur j (outs i)).2 = [f.filePath] :=
      processSingleFile_uploadPaths env cur j (outs i) f u hj2 hf1 hf2 hu ha
    have hdel0 : delayCount (processSingleFile env cur j (outs i)).2 = 0 :=
      processSingleFile_delayCount env cur j (outs i)
    have hlen1 : i + (rest.length + 1) = total := by simpa using htot
    have htot' : (i + 1) + rest.length = total := by omega
    have hrest := ih (i + 1) (processSingleFile env cur j (outs i)).1 hnd'
      (fun g hg => hflags g (List.mem_cons_of_mem f hg)) hidx' htot'
    constructor
    · rw [hgo]
      simp only [uploadPaths_append, hup, hrest.1, List.map_cons]
      by_cases hc : i < total - 1
      · rw [if_pos hc]
        simp [uploadPaths]
      · rw [if_neg hc]
        simp [uploadPaths]
    · rw [hgo]
      simp only [delayCount_append, hdel0, hrest.2, List.length_cons]
      by_cases hc : i < total - 1
      · rw [if_pos hc]
        have h1 : delayCount [ProcEv.delay] = 1 := by
          simp [delayCount, ProcEv.isDelay]
        rw [h1]
        omega
      · rw [if_neg hc]
        have h0 : delayCount ([] : List ProcEv) = 0 := by simp [delayCount]
        rw [h0]
        omega

/-- C8: `processAll` issues exactly one upload attempt per entry that is
neither processed nor currently processing, in queue order and regardless of
the per-file outcomes (so one file's failure does not halt the rest), with
an inter-file delay between consecutive files. -/
theorem processAll_processes_every_eligible (env : AppEnv)
    (q : List FileProcessingState) (outs : Nat → RemoteOutcomes) (u : List Char)
    (hnd : (q.map (·.filePath)).Nodup) (hu : env.currentUser = some u)
    (ha : env.apiAvailable = true) :
    uploadPaths (processAllFiles env q outs).2 =
        (q.filter eligibleFile).map (·.filePath) ∧
      delayCount (processAllFiles env q outs).2 =
        (q.filter eligibleFile).length - 1 := by
  by_cases hempty : (q.filter eligibleFile).isEmpty = true
  · have hnil : q.filter eligibleFile = [] := List.isEmpty_iff.mp hempty
    rw [processAllFiles]
    simp [hnil, uploadPaths, delayCount]
  · have hrun : processAllFiles env q outs =
        processAllGo env q outs (q.filter eligibleFile).length
          (q.filter eligibleFile) 0 q := by
      rw [processAllFiles]
      simp [hempty]
    have hsub : List.Sublist (q.filter eligibleFile) q := List.filter_sublist q
    have hnd' : ((q.filter eligibleFile).map (·.filePath)).Nodup :=
      (hsub.map (·.filePath)).nodup hnd
    have hflags : ∀ f ∈ q.filter eligibleFile,
        f.isProcessing = false ∧ f.isProcessed = false := by
      intro f hf
      have := (List.mem_filter.mp hf).2
      simp only [eligibleFile, Bool.and_eq_true, Bool.not_eq_true'] at this
      exact ⟨this.2, this.1⟩
    have hidx : ∀ f ∈ q.filter eligibleFile, ∃ j,
        jsFindIndex f.filePath q = some j ∧ q[j]? = some f := by
      intro f hf
      exact jsFindIndex_of_nodup q hnd f (List.mem_filter.mp hf).1
    have := processAllGo_spec env q outs (q.filter eligibleFile).length u hu ha
      (q.filter eligibleFile) 0 q hnd' hflags hidx (by simp)
    rw [hrun]
    exact this

/-- Witness for C8: two eligible files and one already-processed file; both
eligible paths are uploaded, in order, with one delay, even though the first
file's upload fails. -/
theorem processAll_processes_every_eligible_witness :
    uploadPaths (processAllFiles ⟨some ("u").toList, true⟩
        [mkNewFile ("a.pdf").toList [] ("pa").toList 0,
         { mkNewFile ("b.pdf").toList [] ("pb").toList 0 with isProcessed := true },
         mkNewFile ("c.pdf").toList [] ("pc").toList 0]
        (fun i => if i = 0 then ⟨.error ("boom").toList, .ok (), .ok true⟩
          else ⟨.ok ⟨("id").toList, ("url").toList⟩, .ok (), .ok true⟩)).2 =
      [("pa").toList, ("pc").toList] ∧
    delayCount (processAllFiles ⟨some ("u").toList, true⟩
        [mkNewFile ("a.pdf").toList [] ("pa").toList 0,
         { mkNewFile ("b.pdf").toList [] ("pb").toList 0 with isProcessed := true },
         mkNewFile ("c.pdf").toList [] ("pc").toList 0]
        (fun i => if i = 0 then ⟨.error ("boom").toList, .ok (), .ok true⟩
          else ⟨.ok ⟨("id").toList, ("url").toList⟩, .ok (), .ok true⟩)).2 = 1 := by
  have h := processAll_processes_every_eligible ⟨some ("u").toList, true⟩
    [mkNewFile ("a.pdf").toList [] ("pa").toList 0,
     { mkNewFile ("b.pdf").toList [] ("pb").toList 0 with isProcessed := true },
     mkNewFile ("c.pdf").toList [] ("pc").toList 0]
    (fun i => if i = 0 then ⟨.error ("boom").toList, .ok (), .ok true⟩
      else ⟨.ok ⟨("id").toList, ("url").toList⟩, .ok (), .ok true⟩)
    ("u").toList (by decide) rfl rfl
  refine ⟨?_, ?_⟩
  · rw [h.1]
    rfl
  · rw [h.2]
    rfl

/-! ## Local cache store (`DatabaseManager.getCachedData`)

The `cache` table is a list of rows keyed by `key`; `expires_at` timestamps
and "now" are instants on one clock, modelled as `Nat`. A `none` database
is the mock (degraded) mode after a failed `initialize`. -/

/-- One row of the `cache` table. -/
structure CacheRow where
  key : List Char
  value : List Char
  expiresAt : Nat
  deriving DecidableEq, Repr

/-- `SELECT value, expires_at FROM cache WHERE key = ?` (first match). -/
def cacheSelect (rows : List CacheRow) (key : List Char) : Option CacheRow :=
  rows.find? fun r => r.key == key

/-- `DELETE FROM cache WHERE key = ?`. -/
def cacheDelete (rows : List CacheRow) (key : List Char) : List CacheRow :=
  rows.filter fun r => !(r.key == key)

/-- `getCachedData(key)` at instant `now`: the returned value (absent on
miss, mock mode, or expiry) and the table after the read (expired rows are
purged by the read itself). -/
def getCachedData (db : Option (List CacheRow)) (key : List Char) (now : Nat) :
    Option (List Char) × Option (List CacheRow) :=
  match db with
  | none => (none, none)
  | some rows =>
    match cacheSelect rows key with
    | none => (none, some rows)
    | some r =>
      if r.expiresAt < now then (none, some (cacheDelete rows key))
      else (some r.value, some rows)

/-- C7: a cache read past the record's `expiresAt` returns absent and
purges the stale row as a side effect; a read before expiry returns the
stored value and leaves the table unchanged. -/
theorem cache_read_expiry (rows : List CacheRow) (key : List Char) (now : Nat)
    (r : CacheRow) (hr : cacheSelect rows key = some r) :
    (r.expiresAt < now →
      (getCachedData (some rows) key now).1 = none ∧
        (getCachedData (some rows) key now).2 = some (cacheDelete rows key) ∧
        ∀ rows', (getCachedData (some rows) key now).2 = some rows' →
          ∀ r' ∈ rows', r'.key ≠ key) ∧
    (now < r.expiresAt →
      (getCachedData (some rows) key now).1 = some r.value ∧
        (getCachedData (some rows) key now).2 = some rows) := by
  constructor
  · intro hexp
    have hres : getCachedData (some rows) key now =
        (none, some (cacheDelete rows key)) := by
      rw [getCachedData, hr]
      simp only
      rw [if_pos hexp]
    refine ⟨by rw [hres], by rw [hres], ?_⟩
    intro rows' hrows' r' hr'
    rw [hres] at hrows'
    have : rows' = cacheDelete rows key := by
      injection hrows' with h
      exact h.symm
    rw [this] at hr'
    have := (List.mem_filter.mp hr').2
    simpa using this
  · intro hfresh
    have hnot : ¬ r.expiresAt < now := by omega
    have hres : getCachedData (some rows) key now = (some r.value, some rows) := by
      rw [getCachedData, hr]
      simp only
      rw [if_neg hnot]
    exact ⟨by rw [hres], by rw [hres]⟩

/-- Witness for C7: a single row expiring at instant 5, read at instants 6
(stale: absent and purged) — the hypothesis is discharged at `now = 6`. -/
theorem cache_read_expiry_witness :
    (getCachedData (some [⟨("k").toList, ("v").toList, 5⟩]) ("k").toList 6).1 =
        none ∧
      (getCachedData (some [⟨("k").toList, ("v").toList, 5⟩]) ("k").toList 6).2 =
        some (cacheDelete [⟨("k").toList, ("v").toList, 5⟩] ("k").toList) := by
  have h := (cache_read_expiry [⟨("k").toList, ("v").toList, 5⟩] ("k").toList 6
    ⟨("k").toList, ("v").toList, 5⟩ (by decide)).1 (by decide)
  exact ⟨h.1, h.2.1⟩

/-! ## OneDrive upload (`OneDriveService.uploadFile`)

Modelled from the point where token, drive id and file bytes are in hand
(the claim's scope, lines 123–208 of `oneDriveService.ts`): the session
attempt, the fallback simple `PUT`, and the outer error translation. HTTP
calls are oracles; an axios rejection carries either a remote response
(status + body), a request-level failure, or another message. -/

/-- The ways an axios call can reject. -/
inductive AxiosFailure
  | response (status : Nat) (data : List Char)
  | request (msg : List Char)
  | other (msg : List Char)
  deriving DecidableEq, Repr

/-- A resolved HTTP response as `handleUploadResponse` sees it. -/
structure HttpResponse where
  status : Nat
  statusText : List Char
  id : List Char
  name : List Char
  webUrl : List Char
  size : Nat
  deriving DecidableEq, Repr

/-- `OneDriveFile` as returned to the renderer. -/
structure OneDriveFile where
  id : List Char
  name : List Char
  webUrl : List Char
  size : Nat
  deriving DecidableEq, Repr

/-- Anything thrown inside the upload `try`: an axios rejection or a plain
`Error` (which has neither `.response` nor `.request`). -/
inductive Thrown
  | axios (e : AxiosFailure)
  | js (msg : List Char)
  deriving DecidableEq, Repr

/-- The error finally surfaced by `uploadFile`'s outer `catch`, one
constructor per thrown-`Error` template. -/
inductive UploadError
  | uploadFailed (status : Nat) (detail : List Char)
  | networkError (msg : List Char)
  | otherError (msg : List Char)
  deriving DecidableEq, Repr

/-- The outer `catch` of `uploadFile`: `error.response` yields the
status-and-body message, `error.request` the network message, anything else
the generic message. -/
def translateUploadError : Thrown → UploadError
  | .axios (.response s d) => .uploadFailed s d
  | .axios (.request m) => .networkError m
  | .axios (.other m) => .otherError m
  | .js m => .otherError m

/-- `handleUploadResponse`: 2xx yields the file, anything else throws a
plain `Error`. -/
def handleUploadResponse (r : HttpResponse) : Except Thrown OneDriveFile :=
  if 200 ≤ r.status ∧ r.status < 300 then
    .ok { id := r.id, name := r.name, webUrl := r.webUrl, size := r.size }
  else .error (.js r.statusText)

/-- The literal `'root'` default folder value. -/
def rootPath : List Char := ("root").toList

/-- Conversion of the incoming `folderPath` to the OneDrive target path
(lines 94–119): strip the `E:\365\` prefix and the `OneDrive - Broadlink/`
root alias, normalise separators. -/
def toTargetPath (folderPath : Option (List Char)) : List Char :=
  match folderPath with
  | none => rootPath
  | some fp =>
    if fp = rootPath ∨ fp = [] then rootPath
    else if '\\' ∈ fp then
      dropIfStarts ("OneDrive - Broadlink/").toList
        (slashify (dropIfStarts ("E:\\365\\").toList fp))
    else dropIfStarts ("OneDrive - Broadlink/").toList fp

/-- The path portion shared by the session URL
(`root:/{target}:/createUploadSession`) and the fallback URL
(`root:/{target}:/content`). -/
def uploadTarget (targetPath fileName : List Char) : List Char :=
  if targetPath = rootPath then fileName
  else targetPath ++ ('/' :: fileName)

/-- HTTP calls attempted by `uploadFile`, in order. -/
inductive UploadEv
  | createSession (target : List Char)
  | putSession
  | putSimple (target : List Char)
  deriving DecidableEq, Repr

/-- The fallback branch: one simple `PUT` to the same target; its failure is
rethrown to the outer catch. -/
def simpleUploadFallback (target : List Char)
    (simplePut : Except AxiosFailure HttpResponse) (evs : List UploadEv) :
    Except UploadError OneDriveFile × List UploadEv :=
  match simplePut with
  | .ok resp =>
    match handleUploadResponse resp with
    | .ok f => (.ok f, evs ++ [UploadEv.putSimple target])
    | .error e => (.error (translateUploadError e), evs ++ [UploadEv.putSimple target])
  | .error e => (.error (translateUploadError (.axios e)), evs ++ [UploadEv.putSimple target])

/-- `uploadFile(filePath, fileName, folderPath)` from the session attempt
on: create an upload session for the target, `PUT` the bytes to it; on any
failure in that `try`, fall back to a single `PUT .../content` on the same
target; translate the surviving error in the outer `catch`. -/
def uploadFile (fileName : List Char) (folderPath : Option (List Char))
    (sessionCreate : Except AxiosFailure (List Char))
    (sessionPut : Except AxiosFailure HttpResponse)
    (simplePut : Except AxiosFailure HttpResponse) :
    Except UploadError OneDriveFile × List UploadEv :=
  let targetPath := toTargetPath folderPath
  let target := uploadTarget targetPath fileName
  match sessionCreate with
  | .ok _uploadUrl =>
    match sessionPut with
    | .ok resp =>
      match handleUploadResponse resp with
      | .ok f => (.ok f, [UploadEv.createSession target, UploadEv.putSession])
      | .error _e =>
        simpleUploadFallback target simplePut
          [UploadEv.createSession target, UploadEv.putSession]
    | .error _e =>
      simpleUploadFallback target simplePut
        [UploadEv.createSession target, UploadEv.putSession]
  | .error _e =>
    simpleUploadFallback target simplePut [UploadEv.createSession target]

/-- The session attempt as a whole succeeded: session created and the
session `PUT` came back 2xx. -/
def sessionOk (sessionCreate : Except AxiosFailure (List Char))
    (sessionPut : Except AxiosFailure HttpResponse) : Bool :=
  match sessionCreate, sessionPut with
  | .ok _, .ok r => decide (200 ≤ r.status ∧ r.status < 300)
  | _, _ => false

/-- The fallback `PUT` succeeded (resolved 2xx). -/
def simpleOk (simplePut : Except AxiosFailure HttpResponse) : Bool :=
  match simplePut with
  | .ok r => decide (200 ≤ r.status ∧ r.status < 300)
  | .error _ => false

/-- C4: `uploadFile` always attempts the session upload first; when the
session path succeeds there is no fallback call; on any session failure it
falls back to one direct `PUT` to the same target; it fails if and only if
both attempts fail; and when the fallback rejection carries a remote
response, the surfaced error is `UploadFailed` with that HTTP status and
that remote error body. -/
theorem uploadFile_session_then_fallback (fileName : List Char)
    (folderPath : Option (List Char)) (sc : Except AxiosFailure (List Char))
    (sp fp : Except AxiosFailure HttpResponse) :
    ((uploadFile fileName folderPath sc sp fp).2.head? =
        some (UploadEv.createSession
          (uploadTarget (toTargetPath folderPath) fileName))) ∧
    (sessionOk sc sp = true →
      (∃ f, (uploadFile fileName folderPath sc sp fp).1 = .ok f) ∧
        ∀ t, UploadEv.putSimple t ∉ (uploadFile fileName folderPath sc sp fp).2) ∧
    (sessionOk sc sp = false →
      UploadEv.putSimple (uploadTarget (toTargetPath folderPath) fileName) ∈
        (uploadFile fileName folderPath sc sp fp).2) ∧
    ((∃ e, (uploadFile fileName folderPath sc sp fp).1 = .error e) ↔
      sessionOk sc sp = false ∧ simpleOk fp = false) ∧
    (∀ s d, sessionOk sc sp = false → fp = .error (.response s d) →
      (uploadFile fileName folderPath sc sp fp).1 = .error (.uploadFailed s d)) := by
  cases sc with
  | error e =>
    cases fp with
    | error e2 =>
      cases e2 <;>
        simp [uploadFile, simpleUploadFallback, sessionOk, simpleOk,
          handleUploadResponse, translateUploadError]
    | ok r2 =>
      by_cases h2 : 200 ≤ r2.status ∧ r2.status < 300 <;>
        simp [uploadFile, simpleUploadFallback, sessionOk, simpleOk,
          handleUploadResponse, translateUploadError, h2]
  | ok url =>
    cases sp with
    | error e1 =>
      cases fp with
      | error e2 =>
        cases e2 <;>
          simp [uploadFile, simpleUploadFallback, sessionOk, simpleOk,
            handleUploadResponse, translateUploadError]
      | ok r2 =>
        by_cases h2 : 200 ≤ r2.status ∧ r2.status < 300 <;>
          simp [uploadFile, simpleUploadFallback, sessionOk, simpleOk,
            handleUploadResponse, translateUploadError, h2]
    | ok r1 =>
      by_cases h1 : 200 ≤ r1.status ∧ r1.status < 300
      · simp [uploadFile, simpleUploadFallback, sessionOk, simpleOk,
          handleUploadResponse, translateUploadError, h1]
      · cases fp with
        | error e2 =>
          cases e2 <;>
            simp [uploadFile, simpleUploadFallback, sessionOk, simpleOk,
              handleUploadResponse, translateUploadError, h1]
        | ok r2 =>
          by_cases h2 : 200 ≤ r2.status ∧ r2.status < 300 <;>
            simp [uploadFile, simpleUploadFallback, sessionOk, simpleOk,
              handleUploadResponse, translateUploadError, h1, h2]

/-- Witness for C4: session creation rejects and the fallback `PUT` rejects
with a 401 response; applying the theorem yields the `UploadFailed 401`
error with the remote body. -/
theorem uploadFile_session_then_fallback_witness :
    (uploadFile ("a.pdf").toList none
        (.error (.other ("sess down").toList))
        (.error (.other ("unused").toList))
        (.error (.response 401 ("denied").toList))).1 =
      .error (.uploadFailed 401 ("denied").toList) :=
  (uploadFile_session_then_fallback ("a.pdf").toList none
      (.error (.other ("sess down").toList))
      (.error (.other ("unused").toList))
      (.error (.response 401 ("denied").toList))).2.2.2.2
    401 ("denied").toList rfl rfl

/-! ## Folder resolution (`findFolderByPath` / `createFolder`)

`findFolderByPath` first `GET`s the cleaned path; on a 404 it re-creates the
whole segment chain from the drive root via `createFolder` (whose request
body asks for rename-on-conflict) and finally fetches the deepest folder by
id. The Graph calls are oracles: one result per `createFolder` call (indexed
by call order), one for the initial path lookup, one keyed by item id for
the final fetch. -/

/-- `OneDriveFolder` as returned by the service. -/
structure OneDriveFolder where
  id : List Char
  name : List Char
  webUrl : List Char
  deriving DecidableEq, Repr

/-- The body `createFolder` posts to `/items/{parent}/children`. -/
structure FolderCreateRequest where
  name : List Char
  parentId : List Char
  conflictBehavior : List Char
  deriving DecidableEq, Repr

/-- `createFolder(folderName, parentFolderId)`'s request: a folder facet
with `'@microsoft.graph.conflictBehavior': 'rename'`. -/
def createFolderRequest (folderName parentFolderId : List Char) :
    FolderCreateRequest :=
  { name := folderName
    parentId := parentFolderId
    conflictBehavior := ("rename").toList }

/-- Graph calls issued while resolving a folder, in order. -/
inductive FolderEv
  | getByPath (cleanPath : List Char)
  | create (req : FolderCreateRequest)
  | getItem (itemId : List Char)
  deriving DecidableEq, Repr

/-- Path cleanup (lines 292–299): drop the drive letter through `':'`,
backslashes to slashes, strip leading and trailing slashes. -/
def cleanPathOf (folderPath : List Char) : List Char :=
  let p1 := if ':' ∈ folderPath then dropThroughFirst ':' folderPath else folderPath
  let p2 := slashify p1
  ((p2.dropWhile (· = '/')).reverse.dropWhile (· = '/')).reverse

/-- `cleanPath.split('/').filter(part => part.length > 0)`. -/
def segmentsOf (cleanPath : List Char) : List (List Char) :=
  (jsSplit '/' cleanPath).filter fun part => 0 < part.length

/-- The creation loop: create each remaining segment under the current
folder id, chaining ids; a failed creation aborts with `none` (the caller
then returns `null`). `k` counts the creation calls made so far. -/
def createChain (createRes : Nat → Except (List Char) OneDriveFolder) :
    List (List Char) → Nat → List Char → Option (List Char) × List FolderEv
  | [], _, currentId => (some currentId, [])
  | part :: rest, k, currentId =>
    match createRes k with
    | .error _ => (none, [FolderEv.create (createFolderRequest part currentId)])
    | .ok folder =>
      let next := createChain createRes rest (k + 1) folder.id
      (next.1, FolderEv.create (createFolderRequest part currentId) :: next.2)

/-- `getError.response?.status === 404`. -/
def isNotFound : AxiosFailure → Bool
  | .response 404 _ => true
  | _ => false

/-- `findFolderByPath(folderPath)`: look the cleaned path up; on 404 create
every segment from `'root'` and fetch the last created id; any other lookup
error, a failed creation, or a failed final fetch yields `null`. -/
def findFolderByPath (folderPath : List Char)
    (getRes : Except AxiosFailure OneDriveFolder)
    (createRes : Nat → Except (List Char) OneDriveFolder)
    (finalGet : List Char → Except AxiosFailure OneDriveFolder) :
    Option OneDriveFolder × List FolderEv :=
  let cleanPath := cleanPathOf folderPath
  match getRes with
  | .ok folder => (some folder, [FolderEv.getByPath cleanPath])
  | .error e =>
    if isNotFound e then
      match createChain createRes (segmentsOf cleanPath) 0 rootPath with
      | (none, evs) => (none, FolderEv.getByPath cleanPath :: evs)
      | (some lastId, evs) =>
        match finalGet lastId with
        | .ok ff =>
          (some ff, FolderEv.getByPath cleanPath :: (evs ++ [FolderEv.getItem lastId]))
        | .error _ =>
          (none, FolderEv.getByPath cleanPath :: (evs ++ [FolderEv.getItem lastId]))
    else (none, [FolderEv.getByPath cleanPath])

/-- Spec-side description of the creation chain: one create per segment, in
order, each parented on the id returned for the previous segment. -/
def expectedChain (g : Nat → OneDriveFolder) :
    List (List Char) → Nat → List Char → List FolderEv
  | [], _, _ => []
  | part :: rest, k, parent =>
    FolderEv.create (createFolderRequest part parent) ::
      expectedChain g rest (k + 1) (g k).id

/-- The id the chain ends on: the parent when there is nothing to create,
otherwise the id of the folder created for the last segment. -/
def lastChainId (g : Nat → OneDriveFolder) (parts : List (List Char)) (k : Nat)
    (parent : List Char) : List Char :=
  match parts with
  | [] => parent
  | _ :: _ => (g (k + parts.length - 1)).id

theorem createChain_ok (g : Nat → OneDriveFolder) :
    ∀ (parts : List (List Char)) (k : Nat) (parent : List Char),
      createChain (fun j => .ok (g j)) parts k parent =
        (some (lastChainId g parts k parent), expectedChain g parts k parent) := by
  intro parts
  induction parts with
  | nil => intro k parent; rfl
  | cons part rest ih =>
    intro k parent
    rw [createChain]
    simp only [ih (k + 1) (g k).id]
    refine Prod.ext ?_ rfl
    simp only [Option.some.injEq]
    cases rest with
    | nil => simp [lastChainId]
    | cons r rs =>
      simp only [lastChainId, List.length_cons]
      congr 2
      omega

theorem expectedChain_conflict (g : Nat → OneDriveFolder) :
    ∀ (parts : List (List Char)) (k : Nat) (parent : List Char) (req : FolderCreateRequest),
      FolderEv.create req ∈ expectedChain g parts k parent →
      req.conflictBehavior = ("rename").toList := by
  intro parts
  induction parts with
  | nil => intro k parent req h; cases h
  | cons part rest ih =>
    intro k parent req h
    rcases List.mem_cons.mp h with h | h
    · injection h with h
      rw [h]
      rfl
    · exact ih (k + 1) (g k).id req h

/-- C6: when the cleaned path resolves, `findFolderByPath` returns that
folder with no creation; on a 404 with all creations succeeding
(`createRes j = .ok (g j)`), it issues one rename-on-conflict create per
path segment in order — the first parented on `'root'`, each next on the
previously returned id — and returns the folder fetched at the deepest
created id. -/
theorem findOrCreateFolder_spec (folderPath : List Char)
    (getRes : Except AxiosFailure OneDriveFolder) (g : Nat → OneDriveFolder)
    (finalGet : List Char → Except AxiosFailure OneDriveFolder) :
    (∀ f, getRes = .ok f →
      findFolderByPath folderPath getRes (fun j => .ok (g j)) finalGet =
        (some f, [FolderEv.getByPath (cleanPathOf folderPath)])) ∧
    (∀ d, getRes = .error (.response 404 d) →
      ((findFolderByPath folderPath getRes (fun j => .ok (g j)) finalGet).2 =
        FolderEv.getByPath (cleanPathOf folderPath) ::
          (expectedChain g (segmentsOf (cleanPathOf folderPath)) 0 rootPath ++
            [FolderEv.getItem
              (lastChainId g (segmentsOf (cleanPathOf folderPath)) 0 rootPath)])) ∧
      (∀ req, FolderEv.create req ∈
          (findFolderByPath folderPath getRes (fun j => .ok (g j)) finalGet).2 →
        req.conflictBehavior = ("rename").toList) ∧
      (∀ ff, finalGet
            (lastChainId g (segmentsOf (cleanPathOf folderPath)) 0 rootPath) =
          .ok ff →
        (findFolderByPath folderPath getRes (fun j => .ok (g j)) finalGet).1 =
          some ff)) := by
  constructor
  · intro f hres
    subst hres
    rfl
  · intro d hres
    subst hres
    have hchain := createChain_ok g (segmentsOf (cleanPathOf folderPath)) 0 rootPath
    have hred : findFolderByPath folderPath (.error (.response 404 d))
        (fun j => .ok (g j)) finalGet =
        (match finalGet (lastChainId g (segmentsOf (cleanPathOf folderPath)) 0 rootPath) with
          | .ok ff => some ff
          | .error _ => none,
         FolderEv.getByPath (cleanPathOf folderPath) ::
          (expectedChain g (segmentsOf (cleanPathOf folderPath)) 0 rootPath ++
            [FolderEv.getItem
              (lastChainId g (segmentsOf (cleanPathOf folderPath)) 0 rootPath)])) := by
      rw [findFolderByPath]
      simp only [isNotFound, if_true, hchain]
      cases finalGet (lastChainId g (segmentsOf (cleanPathOf folderPath)) 0 rootPath) with
      | ok ff => rfl
      | error e => rfl
    refine ⟨by rw [hred], ?_, ?_⟩
    · intro req hreq
      rw [hred] at hreq
      simp only [List.mem_cons, List.mem_append, List.mem_singleton,
        List.not_mem_nil, or_false] at hreq
      rcases hreq with h | h | h
      · exact FolderEv.noConfusion h
      · exact expectedChain_conflict g _ 0 rootPath req h
      · exact FolderEv.noConfusion h
    · intro ff hff
      rw [hred]
      simp only [hff]

/-- Witness for C6: path `Finance/2024` is missing (404); both segments are
created and the deepest created folder is returned. -/
theorem findOrCreateFolder_spec_witness :
    (findFolderByPath ("Finance/2024").toList
        (Except.error (AxiosFailure.response 404 ("nf").toList))
        (fun _ => Except.ok
          { id := ("cid").toList, name := ("n").toList, webUrl := ("w").toList })
        (fun _ => Except.ok
          { id := ("deep").toList, name := ("2024").toList, webUrl := ("wu").toList })).1 =
      some { id := ("deep").toList, name := ("2024").toList, webUrl := ("wu").toList } :=
  ((findOrCreateFolder_spec ("Finance/2024").toList
      (Except.error (AxiosFailure.response 404 ("nf").toList))
      (fun _ => { id := ("cid").toList, name := ("n").toList, webUrl := ("w").toList })
      (fun _ => Except.ok
        { id := ("deep").toList, name := ("2024").toList, webUrl := ("wu").toList })).2
    ("nf").toList rfl).2.2
    { id := ("deep").toList, name := ("2024").toList, webUrl := ("wu").toList } rfl

end BlinkApp
